import Mathlib

/-!
Verification of the InactivePanes repository's core logic.

Part 1 embeds the color-scheme dimming transform
(`InactivePanes.dim_scheme` in `inactive_panes.py`): a regex-driven
substitution that replaces every `#RRGGBB` token of a color-scheme text
by a blend of the token's channels toward a configured dim color.

Part 2 embeds the change-detecting settings cache (`Settings` in
`settings/__init__.py` and its specialization in `inactive_panes.py`).

Strings are modelled as `List Char`; Python floats are modelled as `ℚ`;
Python's `int()` truncation is modelled by `pyInt`.
-/

/-- The character class `[0-9A-F]` of the source regex, compiled with
`re.I` (case-insensitive), i.e. the set of hexadecimal digits. -/
def hexChars : List Char :=
  ['0', '1', '2', '3', '4', '5', '6', '7', '8', '9',
   'A', 'B', 'C', 'D', 'E', 'F', 'a', 'b', 'c', 'd', 'e', 'f']

/-- Membership in the regex character class `[0-9A-F]` with `re.I`. -/
def isHexDigit (c : Char) : Bool := decide (c ∈ hexChars)

/-- Value of a single hexadecimal digit (0 for non-digits; only applied
to members of `hexChars`). -/
def hexVal : Char → ℕ
  | '0' => 0 | '1' => 1 | '2' => 2 | '3' => 3 | '4' => 4
  | '5' => 5 | '6' => 6 | '7' => 7 | '8' => 8 | '9' => 9
  | 'A' => 10 | 'B' => 11 | 'C' => 12 | 'D' => 13 | 'E' => 14 | 'F' => 15
  | 'a' => 10 | 'b' => 11 | 'c' => 12 | 'd' => 13 | 'e' => 14 | 'f' => 15
  | _ => 0

/-- `int(cc, 16)` for a two-hex-digit group `cc`, as captured by one
regex group `([0-9A-F]{2})`. -/
def hexPair (a b : Char) : ℕ := 16 * hexVal a + hexVal b

/-- Lowercase hexadecimal digit character for a value below 16 (the `x`
format code of Python produces lowercase digits). -/
def hexDigitL : ℕ → Char
  | 0 => '0' | 1 => '1' | 2 => '2' | 3 => '3' | 4 => '4'
  | 5 => '5' | 6 => '6' | 7 => '7' | 8 => '8' | 9 => '9'
  | 10 => 'a' | 11 => 'b' | 12 => 'c' | 13 => 'd' | 14 => 'e' | 15 => 'f'
  | _ => '?'

/-- Hexadecimal digit expansion of a natural number, most significant
digit first, with an explicit fuel argument (the fuel is always at least
the input, which suffices since `n / 16 < n` for `n ≥ 16`). -/
def natToHexAux : ℕ → ℕ → List Char
  | 0, n => [hexDigitL (n % 16)]
  | fuel + 1, n =>
    if n < 16 then [hexDigitL n]
    else natToHexAux fuel (n / 16) ++ [hexDigitL (n % 16)]

/-- Python's `"{0:02x}".format(n)`: lowercase hexadecimal digits of `n`,
zero-padded on the left to at least two characters. -/
def format02x (n : ℕ) : List Char :=
  let h := natToHexAux n n
  if h.length < 2 then '0' :: h else h

/-- Python's `int()` applied to a (rational-modelled) float: truncation
toward zero. -/
def pyInt (q : ℚ) : ℤ := if 0 ≤ q then ⌊q⌋ else ⌈q⌉

/-- The value of a `dim_strength` setting: either a Python number
(`int`/`float`, modelled as `ℚ`) or a value of some non-numeric type, on
which `isinstance(dim_strength, (int, float))` is false. -/
inductive StrengthVal where
  | num (q : ℚ) : StrengthVal
  | notNum : StrengthVal
deriving DecidableEq

/-- The combined validity check on `dim_strength` performed by
`dim_scheme`: `isinstance(dim_strength, (int, float))` and
`0 <= dim_strength <= 1`. -/
def validStrength : StrengthVal → Bool
  | StrengthVal.num s => decide (0 ≤ s) && decide (s ≤ 1)
  | StrengthVal.notNum => false

/-- `re_rgb.match(dim_color)` combined with `len(dim_color) == 7`:
the dim color must be `#` followed by exactly six hexadecimal digits;
on success the three channel values `int(c, 16)` of the three captured
groups are returned. -/
def parseDimColor : List Char → Option (ℕ × ℕ × ℕ)
  | ['#', a, b, c, d, e, f] =>
    if isHexDigit a && isHexDigit b && isHexDigit c && isHexDigit d &&
       isHexDigit e && isHexDigit f then
      some (hexPair a b, hexPair c d, hexPair e f)
    else
      Option.none
  | _ => Option.none

/-- The pre-calculated dim fractions
`dim_rgb_v = tuple(int(int(c, 16) * dim_strength) for c in dim_rgb.groups())`. -/
def dimV (s : ℚ) (dv : ℕ × ℕ × ℕ) : ℕ × ℕ × ℕ :=
  ((pyInt ((dv.1 : ℚ) * s)).toNat,
   (pyInt ((dv.2.1 : ℚ) * s)).toNat,
   (pyInt ((dv.2.2 : ℚ) * s)).toNat)

/-- One blended channel:
`int(int(rgb[i], 16) * orig_strength) + dim_rgb_v[i]` where
`orig_strength = 1 - dim_strength` and `dV` is the pre-calculated dim
fraction for this channel.  (The value is non-negative whenever
`0 ≤ s ≤ 1`, which `dim_scheme` checks before substituting.) -/
def chanBlend (s : ℚ) (c : ℕ) (dV : ℕ) : ℕ :=
  (pyInt ((c : ℚ) * (1 - s))).toNat + dV

/-- The replacement callback `dim_and_repl_rgb`: receives the six
captured digit characters of one `#RRGGBB` match and produces
`"#{0:02x}{1:02x}{2:02x}".format(*rgb)`. -/
def dimRep (s : ℚ) (dV : ℕ × ℕ × ℕ) (a b c d e f : Char) : List Char :=
  '#' :: (format02x (chanBlend s (hexPair a b) dV.1) ++
          format02x (chanBlend s (hexPair c d) dV.2.1) ++
          format02x (chanBlend s (hexPair e f) dV.2.2))

/-- The guard of one regex match: six consecutive hexadecimal digits. -/
def sixHexB (a b c d e f : Char) : Bool :=
  isHexDigit a && isHexDigit b && isHexDigit c && isHexDigit d &&
  isHexDigit e && isHexDigit f

/-- `re_rgb.sub(rep, data)` for the fixed pattern
`#([0-9A-F]{2})([0-9A-F]{2})([0-9A-F]{2})` (case-insensitive):
left-to-right scan, leftmost non-overlapping matches, each match of
`#` plus six hex digits replaced by `rep` applied to the six digits;
scanning resumes after the consumed match, and a failed match at a `#`
resumes at the following character. -/
def dimSub (rep : Char → Char → Char → Char → Char → Char → List Char) :
    List Char → List Char
  | [] => []
  | x :: rest =>
    if x = '#' then
      match rest with
      | a :: b :: c :: d :: e :: f :: r2 =>
        if sixHexB a b c d e f then
          rep a b c d e f ++ dimSub rep r2
        else
          '#' :: dimSub rep (a :: b :: c :: d :: e :: f :: r2)
      | r => '#' :: dimSub rep r
    else
      x :: dimSub rep rest
termination_by l => l.length
decreasing_by all_goals simp [List.length_cons] <;> omega

/-- `InactivePanes.dim_scheme(data, settings)`: validate `dim_strength`
and `dim_color`, then substitute every `#RRGGBB` token of `data`;
`Option.none` models the `return` (of `None`) taken on invalid
configuration. -/
def dim_scheme (dim_color : List Char) (dim_strength : StrengthVal)
    (data : List Char) : Option (List Char) :=
  match dim_strength with
  | StrengthVal.num s =>
    if s < 0 ∨ 1 < s then Option.none
    else
      match parseDimColor dim_color with
      | some dv => some (dimSub (dimRep s (dimV s dv)) data)
      | Option.none => Option.none
  | StrengthVal.notNum => Option.none

-- ### Unfolding lemmas for `dimSub`

theorem dimSub_nil (rep : Char → Char → Char → Char → Char → Char → List Char) :
    dimSub rep [] = [] :=
  dimSub.eq_1 rep

theorem dimSub_match (rep : Char → Char → Char → Char → Char → Char → List Char)
    (a b c d e f : Char) (r2 : List Char) (h : sixHexB a b c d e f = true) :
    dimSub rep ('#' :: a :: b :: c :: d :: e :: f :: r2) =
      rep a b c d e f ++ dimSub rep r2 := by
  rw [dimSub.eq_2, if_pos rfl, if_pos h]

theorem dimSub_cons_ne (rep : Char → Char → Char → Char → Char → Char → List Char)
    (x : Char) (rest : List Char) (hx : x ≠ '#') :
    dimSub rep (x :: rest) = x :: dimSub rep rest := by
  rcases rest with _ | ⟨a, _ | ⟨b, _ | ⟨c, _ | ⟨d, _ | ⟨e, _ | ⟨f, r2⟩⟩⟩⟩⟩⟩
  · rw [dimSub.eq_3 rep x [] (by intros _ _ _ _ _ _ _ hh; simp_all), if_neg hx]
  · rw [dimSub.eq_3 rep x [a] (by intros _ _ _ _ _ _ _ hh; simp_all), if_neg hx]
  · rw [dimSub.eq_3 rep x [a, b] (by intros _ _ _ _ _ _ _ hh; simp_all), if_neg hx]
  · rw [dimSub.eq_3 rep x [a, b, c] (by intros _ _ _ _ _ _ _ hh; simp_all), if_neg hx]
  · rw [dimSub.eq_3 rep x [a, b, c, d] (by intros _ _ _ _ _ _ _ hh; simp_all), if_neg hx]
  · rw [dimSub.eq_3 rep x [a, b, c, d, e] (by intros _ _ _ _ _ _ _ hh; simp_all), if_neg hx]
  · rw [dimSub.eq_2, if_neg hx]

/-- Whether a regex match starts at a list position: at least six
characters follow and the first six are hexadecimal digits. -/
def sixHexPrefix : List Char → Bool
  | a :: b :: c :: d :: e :: f :: _ => sixHexB a b c d e f
  | _ => false

theorem dimSub_hash_nomatch (rep : Char → Char → Char → Char → Char → Char → List Char)
    (rest : List Char) (h : sixHexPrefix rest = false) :
    dimSub rep ('#' :: rest) = '#' :: dimSub rep rest := by
  rcases rest with _ | ⟨a, _ | ⟨b, _ | ⟨c, _ | ⟨d, _ | ⟨e, _ | ⟨f, r2⟩⟩⟩⟩⟩⟩
  · rw [dimSub.eq_3 rep _ [] (by intros _ _ _ _ _ _ _ hh; simp_all), if_pos rfl]
  · rw [dimSub.eq_3 rep _ [a] (by intros _ _ _ _ _ _ _ hh; simp_all), if_pos rfl]
  · rw [dimSub.eq_3 rep _ [a, b] (by intros _ _ _ _ _ _ _ hh; simp_all), if_pos rfl]
  · rw [dimSub.eq_3 rep _ [a, b, c] (by intros _ _ _ _ _ _ _ hh; simp_all), if_pos rfl]
  · rw [dimSub.eq_3 rep _ [a, b, c, d] (by intros _ _ _ _ _ _ _ hh; simp_all), if_pos rfl]
  · rw [dimSub.eq_3 rep _ [a, b, c, d, e] (by intros _ _ _ _ _ _ _ hh; simp_all), if_pos rfl]
  · simp only [sixHexPrefix] at h
    rw [dimSub.eq_2, if_pos rfl, if_neg (by simp [h])]

/-- A list with no `#` passes through `dimSub` unchanged and no match
can reach past it. -/
theorem dimSub_append_no_hash
    (rep : Char → Char → Char → Char → Char → Char → List Char)
    (u w : List Char) (hu : '#' ∉ u) :
    dimSub rep (u ++ w) = u ++ dimSub rep w := by
  induction u with
  | nil => simp
  | cons x u ih =>
    have hx : x ≠ '#' := by
      intro hh
      exact hu (by simp [hh])
    have hu2 : '#' ∉ u := by
      intro hh
      exact hu (by simp [hh])
    simp only [List.cons_append]
    rw [dimSub_cons_ne rep x (u ++ w) hx, ih hu2]

-- ### Facts about hexadecimal digits and formatting

theorem isHexDigit_mem {c : Char} (h : isHexDigit c = true) : c ∈ hexChars :=
  of_decide_eq_true h

theorem hexVal_lt {c : Char} (h : isHexDigit c = true) : hexVal c < 16 := by
  have h2 := isHexDigit_mem h
  fin_cases h2 <;> decide

theorem hex_ne_hash {c : Char} (h : isHexDigit c = true) : c ≠ '#' := by
  have h2 := isHexDigit_mem h
  fin_cases h2 <;> decide

theorem hexPair_lt {a b : Char} (ha : isHexDigit a = true)
    (hb : isHexDigit b = true) : hexPair a b < 256 := by
  have h1 := hexVal_lt ha
  have h2 := hexVal_lt hb
  unfold hexPair
  omega

theorem hexDigitL_isHex : ∀ n < 16, isHexDigit (hexDigitL n) = true := by decide

theorem hexVal_hexDigitL : ∀ n < 16, hexVal (hexDigitL n) = n := by decide

set_option maxRecDepth 4096 in
theorem format02x_eq_pair (n : ℕ) (h : n < 256) :
    format02x n = [hexDigitL (n / 16), hexDigitL (n % 16)] := by
  have key : ∀ m < 256, format02x m = [hexDigitL (m / 16), hexDigitL (m % 16)] := by decide
  exact key n h

theorem format02x_inj {n m : ℕ} (hn : n < 256) (hm : m < 256)
    (h : format02x n = format02x m) : n = m := by
  rw [format02x_eq_pair n hn, format02x_eq_pair m hm] at h
  simp only [List.cons.injEq, and_true] at h
  obtain ⟨h1, h2⟩ := h
  have e1 : n / 16 = m / 16 := by
    have := hexVal_hexDigitL (n / 16) (by omega)
    rw [h1, hexVal_hexDigitL (m / 16) (by omega)] at this
    omega
  have e2 : n % 16 = m % 16 := by
    have := hexVal_hexDigitL (n % 16) (by omega)
    rw [h2, hexVal_hexDigitL (m % 16) (by omega)] at this
    omega
  omega

theorem hexPair_hexDigitL (n : ℕ) (h : n < 256) :
    hexPair (hexDigitL (n / 16)) (hexDigitL (n % 16)) = n := by
  unfold hexPair
  rw [hexVal_hexDigitL (n / 16) (by omega), hexVal_hexDigitL (n % 16) (by omega)]
  omega

theorem pyInt_of_nonneg {q : ℚ} (h : 0 ≤ q) : pyInt q = ⌊q⌋ :=
  if_pos h

/-- For a valid strength the replacement callback computes, per channel,
the sum of the two independently truncated terms
`⌊c * (1 - s)⌋ + ⌊d * s⌋`. -/
theorem dimRep_floor (s : ℚ) (h0 : 0 ≤ s) (h1 : s ≤ 1) (dr dg db : ℕ)
    (a b c d e f : Char) :
    dimRep s (dimV s (dr, dg, db)) a b c d e f =
      '#' :: (format02x (Int.toNat ⌊(hexPair a b : ℚ) * (1 - s)⌋ +
                         Int.toNat ⌊(dr : ℚ) * s⌋) ++
              format02x (Int.toNat ⌊(hexPair c d : ℚ) * (1 - s)⌋ +
                         Int.toNat ⌊(dg : ℚ) * s⌋) ++
              format02x (Int.toNat ⌊(hexPair e f : ℚ) * (1 - s)⌋ +
                         Int.toNat ⌊(db : ℚ) * s⌋)) := by
  have hs1 : (0 : ℚ) ≤ 1 - s := by linarith
  simp only [dimRep, dimV, chanBlend]
  rw [pyInt_of_nonneg (mul_nonneg (Nat.cast_nonneg _) hs1),
      pyInt_of_nonneg (mul_nonneg (Nat.cast_nonneg _) h0),
      pyInt_of_nonneg (mul_nonneg (Nat.cast_nonneg _) hs1),
      pyInt_of_nonneg (mul_nonneg (Nat.cast_nonneg _) h0),
      pyInt_of_nonneg (mul_nonneg (Nat.cast_nonneg _) hs1),
      pyInt_of_nonneg (mul_nonneg (Nat.cast_nonneg _) h0)]

-- ### Claim C3

/-- C3: for every input text, if `dim_strength` is not numeric or lies
outside `[0, 1]`, or `dim_color` fails the `#RRGGBB` format check, then
`dim_scheme` performs no substitution and returns the failure result
`Option.none`.  (It cannot crash: `dim_scheme` is a total function.) -/
theorem C3_invalid_config_none (dim_color : List Char)
    (dim_strength : StrengthVal) (data : List Char)
    (h : validStrength dim_strength = false ∨
         parseDimColor dim_color = Option.none) :
    dim_scheme dim_color dim_strength data = Option.none := by
  rcases dim_strength with s | _
  · rcases h with h | h
    · have hs : s < 0 ∨ 1 < s := by
        by_contra hc
        push_neg at hc
        simp [validStrength, hc.1, hc.2] at h
      simp [dim_scheme, if_pos hs]
    · simp [dim_scheme, h]
  · rfl

/-- Witness for C3: the out-of-range strength `3/2` (and, for the other
disjunct, any data) makes `dim_scheme` decline and return no output. -/
theorem C3_invalid_config_none_witness :
    (validStrength (StrengthVal.num (3/2)) = false ∨
     parseDimColor ['#', '7', 'F', '7', 'F', '7', 'F'] = Option.none)
    ∧ dim_scheme ['#', '7', 'F', '7', 'F', '7', 'F'] (StrengthVal.num (3/2))
        ['#', 'F', 'F', 'F', 'F', 'F', 'F'] = Option.none :=
  ⟨Or.inl (by norm_num [validStrength]),
   C3_invalid_config_none _ _ _ (Or.inl (by norm_num [validStrength]))⟩

-- ### Claim C9

/-- C9: the color-token match is not anchored to token boundaries.  An
input consisting of `#` followed by eight hexadecimal digits (an
RGBA-style token) is transformed by blending the first six digits as an
`#RRGGBB` token — each channel becoming `⌊c*(1-s)⌋ + ⌊d*s⌋` — while the
trailing two digits are left in place. -/
theorem C9_rgba_partial_blend (s : ℚ) (h0 : 0 ≤ s) (h1 : s ≤ 1)
    (color : List Char) (dr dg db : ℕ)
    (hc : parseDimColor color = some (dr, dg, db))
    (a b c d e f g h : Char)
    (ha : isHexDigit a = true) (hb : isHexDigit b = true)
    (hc2 : isHexDigit c = true) (hd : isHexDigit d = true)
    (he : isHexDigit e = true) (hf : isHexDigit f = true)
    (hg : isHexDigit g = true) (hh : isHexDigit h = true) :
    dim_scheme color (StrengthVal.num s)
        ['#', a, b, c, d, e, f, g, h] =
      some ('#' :: (format02x (Int.toNat ⌊(hexPair a b : ℚ) * (1 - s)⌋ +
                               Int.toNat ⌊(dr : ℚ) * s⌋) ++
                    format02x (Int.toNat ⌊(hexPair c d : ℚ) * (1 - s)⌋ +
                               Int.toNat ⌊(dg : ℚ) * s⌋) ++
                    format02x (Int.toNat ⌊(hexPair e f : ℚ) * (1 - s)⌋ +
                               Int.toNat ⌊(db : ℚ) * s⌋)) ++ [g, h]) := by
  have hno : ¬(s < 0 ∨ 1 < s) := by
    push_neg
    exact ⟨by linarith, by linarith⟩
  simp only [dim_scheme, hc, if_neg hno]
  rw [show (['#', a, b, c, d, e, f, g, h] : List Char) =
        '#' :: a :: b :: c :: d :: e :: f :: [g, h] from rfl]
  rw [dimSub_match _ _ _ _ _ _ _ _ (by simp [sixHexB, ha, hb, hc2, hd, he, hf])]
  rw [dimSub_cons_ne _ _ _ (hex_ne_hash hg), dimSub_cons_ne _ _ _ (hex_ne_hash hh),
      dimSub_nil]
  rw [dimRep_floor s h0 h1 dr dg db a b c d e f]

/-- Witness for C9: dimming `#00000011` toward `#7F7F7F` with strength
`1/5` (the plugin's defaults) blends the first six digits to `#191919`
and keeps the trailing `11`, producing `#19191911`. -/
theorem C9_rgba_partial_blend_witness :
    ((0 : ℚ) ≤ 1/5 ∧ (1/5 : ℚ) ≤ 1
      ∧ parseDimColor ['#', '7', 'F', '7', 'F', '7', 'F'] = some (127, 127, 127))
    ∧ dim_scheme ['#', '7', 'F', '7', 'F', '7', 'F'] (StrengthVal.num (1/5))
        ['#', '0', '0', '0', '0', '0', '0', '1', '1'] =
      some ('#' :: (format02x (Int.toNat ⌊(hexPair '0' '0' : ℚ) * (1 - 1/5)⌋ +
                               Int.toNat ⌊(127 : ℚ) * (1/5)⌋) ++
                    format02x (Int.toNat ⌊(hexPair '0' '0' : ℚ) * (1 - 1/5)⌋ +
                               Int.toNat ⌊(127 : ℚ) * (1/5)⌋) ++
                    format02x (Int.toNat ⌊(hexPair '0' '0' : ℚ) * (1 - 1/5)⌋ +
                               Int.toNat ⌊(127 : ℚ) * (1/5)⌋)) ++ ['1', '1']) :=
  ⟨⟨by norm_num, by norm_num, by decide⟩,
   C9_rgba_partial_blend (1/5) (by norm_num) (by norm_num) _ 127 127 127
     (by decide) '0' '0' '0' '0' '0' '0' '1' '1'
     (by decide) (by decide) (by decide) (by decide) (by decide) (by decide)
     (by decide) (by decide)⟩

-- ### Claim C1

/-- Modelled from the claim's words (not from the source): the claimed
per-channel blend `round(c * (1 - s) + d * s)` for source channel `c`
and dim channel `d`. -/
def specRoundChan (s : ℚ) (c d : ℕ) : ℤ :=
  round ((c : ℚ) * (1 - s) + (d : ℚ) * s)

/-- Counterexample to C1: dimming the text `#010101` toward the dim
color `#010101` with strength `1/2`.  Every channel has `c = d = 1`, so
the claimed formula gives `round(1*(1/2) + 1*(1/2)) = 1` — i.e. the
output token `#010101` — but the code computes
`int(1 * 0.5) + int(1 * 0.5) = 0 + 0 = 0` per channel and returns
`#000000`. -/
theorem C1_round_counterexample :
    dim_scheme ['#', '0', '1', '0', '1', '0', '1'] (StrengthVal.num (1/2))
        ['#', '0', '1', '0', '1', '0', '1'] =
      some ['#', '0', '0', '0', '0', '0', '0']
    ∧ specRoundChan (1/2) 1 1 = 1
    ∧ (['#', '0', '0', '0', '0', '0', '0'] : List Char) ≠
        ['#', '0', '1', '0', '1', '0', '1'] := by
  refine ⟨?_, by norm_num [specRoundChan], by decide⟩
  have hpc : parseDimColor ['#', '0', '1', '0', '1', '0', '1'] = some (1, 1, 1) := by
    decide
  have hno : ¬((1 : ℚ)/2 < 0 ∨ 1 < (1 : ℚ)/2) := by norm_num
  simp only [dim_scheme, hpc, if_neg hno]
  rw [show (['#', '0', '1', '0', '1', '0', '1'] : List Char) =
        '#' :: '0' :: '1' :: '0' :: '1' :: '0' :: '1' :: [] from rfl]
  rw [dimSub_match _ _ _ _ _ _ _ _ (by decide), dimSub_nil]
  have hv : dimV (1/2) (1, 1, 1) = (0, 0, 0) := by
    have : pyInt ((1 : ℚ) * (1/2)) = 0 := by
      rw [pyInt_of_nonneg (by norm_num)]
      norm_num [Int.floor_eq_iff]
    simp [dimV]
    simp at this
    simp [this]
  rw [hv]
  have hcb : chanBlend (1/2) 1 0 = 0 := by
    rw [chanBlend, pyInt_of_nonneg (by norm_num)]
    norm_num [Int.floor_eq_iff]
  have hhp : hexPair '0' '1' = 1 := by decide
  simp only [dimRep, hhp, hcb]
  decide

/-- C1 as amended: for every valid configuration, `dim_scheme` replaces
each `#RRGGBB` token by blending the channels independently with the
formula `⌊c * (1 - s)⌋ + ⌊d * s⌋` (each term truncated separately — not
`round(c * (1 - s) + d * s)`), and non-color text (here: an arbitrary
`#`-free prefix) is left unchanged, the remainder being processed the
same way. -/
theorem C1_floor_blend (s : ℚ) (h0 : 0 ≤ s) (h1 : s ≤ 1)
    (color : List Char) (dr dg db : ℕ)
    (hc : parseDimColor color = some (dr, dg, db))
    (u v : List Char) (hu : '#' ∉ u)
    (a b c d e f : Char)
    (ha : isHexDigit a = true) (hb : isHexDigit b = true)
    (hc2 : isHexDigit c = true) (hd : isHexDigit d = true)
    (he : isHexDigit e = true) (hf : isHexDigit f = true) :
    dim_scheme color (StrengthVal.num s)
        (u ++ '#' :: a :: b :: c :: d :: e :: f :: v) =
      some (u ++ '#' :: (format02x (Int.toNat ⌊(hexPair a b : ℚ) * (1 - s)⌋ +
                                    Int.toNat ⌊(dr : ℚ) * s⌋) ++
                         format02x (Int.toNat ⌊(hexPair c d : ℚ) * (1 - s)⌋ +
                                    Int.toNat ⌊(dg : ℚ) * s⌋) ++
                         format02x (Int.toNat ⌊(hexPair e f : ℚ) * (1 - s)⌋ +
                                    Int.toNat ⌊(db : ℚ) * s⌋)) ++
            dimSub (dimRep s (dimV s (dr, dg, db))) v) := by
  have hno : ¬(s < 0 ∨ 1 < s) := by
    push_neg
    exact ⟨by linarith, by linarith⟩
  simp only [dim_scheme, hc, if_neg hno]
  rw [dimSub_append_no_hash _ u _ hu]
  rw [dimSub_match _ _ _ _ _ _ _ _ (by simp [sixHexB, ha, hb, hc2, hd, he, hf])]
  rw [dimRep_floor s h0 h1 dr dg db a b c d e f]
  simp

/-- Witness for C1 as amended: dimming `ab#FFFFFF` toward `#000000`
with strength `1/2` leaves the prefix `ab` unchanged and blends the
token to the floor values `⌊255 * (1/2)⌋ = 127` per channel. -/
theorem C1_floor_blend_witness :
    ((0 : ℚ) ≤ 1/2 ∧ (1/2 : ℚ) ≤ 1
      ∧ parseDimColor ['#', '0', '0', '0', '0', '0', '0'] = some (0, 0, 0)
      ∧ '#' ∉ (['a', 'b'] : List Char))
    ∧ dim_scheme ['#', '0', '0', '0', '0', '0', '0'] (StrengthVal.num (1/2))
        (['a', 'b'] ++ '#' :: 'F' :: 'F' :: 'F' :: 'F' :: 'F' :: 'F' :: []) =
      some (['a', 'b'] ++ '#' :: (format02x (Int.toNat ⌊(hexPair 'F' 'F' : ℚ) * (1 - 1/2)⌋ +
                                             Int.toNat ⌊(0 : ℚ) * (1/2)⌋) ++
                                  format02x (Int.toNat ⌊(hexPair 'F' 'F' : ℚ) * (1 - 1/2)⌋ +
                                             Int.toNat ⌊(0 : ℚ) * (1/2)⌋) ++
                                  format02x (Int.toNat ⌊(hexPair 'F' 'F' : ℚ) * (1 - 1/2)⌋ +
                                             Int.toNat ⌊(0 : ℚ) * (1/2)⌋)) ++
            dimSub (dimRep (1/2) (dimV (1/2) (0, 0, 0))) []) :=
  ⟨⟨by norm_num, by norm_num, by decide, by decide⟩,
   C1_floor_blend (1/2) (by norm_num) (by norm_num) _ 0 0 0 (by decide)
     ['a', 'b'] [] (by decide) 'F' 'F' 'F' 'F' 'F' 'F'
     (by decide) (by decide) (by decide) (by decide) (by decide) (by decide)⟩

-- ### Claim C5: helper definitions and lemmas

/-- Modelled from the spec's words ("case normalization of hex digits,
which the implementation lowercases"): lowercase a hexadecimal digit
character. -/
def lowerHexChar : Char → Char
  | 'A' => 'a' | 'B' => 'b' | 'C' => 'c'
  | 'D' => 'd' | 'E' => 'e' | 'F' => 'f'
  | c => c

/-- Modelled from the spec's words: the replacement that leaves a color
token in place, merely lowercasing its six hex digits. -/
def lowerRep (a b c d e f : Char) : List Char :=
  ['#', lowerHexChar a, lowerHexChar b, lowerHexChar c,
   lowerHexChar d, lowerHexChar e, lowerHexChar f]

/-- Modelled from the spec's words: "returns the input unchanged (mod
case normalization of hex digits)" — every matched `#RRGGBB` token has
its digits lowercased, all other text is untouched. -/
def lowerHexTokens : List Char → List Char := dimSub lowerRep

theorem sixHexPrefix_cons (a b c d e f : Char) (r2 : List Char) :
    sixHexPrefix (a :: b :: c :: d :: e :: f :: r2) = sixHexB a b c d e f :=
  rfl

theorem sixHexPrefix_false_of_not_shape (r : List Char)
    (hshape : ∀ (a b c d e f : Char) (r2 : List Char),
      r = a :: b :: c :: d :: e :: f :: r2 → False) :
    sixHexPrefix r = false := by
  rcases r with _ | ⟨a, _ | ⟨b, _ | ⟨c, _ | ⟨d, _ | ⟨e, _ | ⟨f, r2⟩⟩⟩⟩⟩⟩
  · rfl
  · rfl
  · rfl
  · rfl
  · rfl
  · rfl
  · exact absurd rfl (fun hh => hshape a b c d e f r2 hh)

/-- If two replacement callbacks agree on all matched six-digit groups,
substitution with them agrees on every input. -/
theorem dimSub_congr (rep1 rep2 : Char → Char → Char → Char → Char → Char → List Char)
    (h : ∀ a b c d e f, sixHexB a b c d e f = true →
      rep1 a b c d e f = rep2 a b c d e f) :
    ∀ t, dimSub rep1 t = dimSub rep2 t := by
  intro t
  induction t using dimSub.induct rep1 with
  | case1 => rw [dimSub_nil, dimSub_nil]
  | case2 a b c d e f r2 hhex ih =>
    rw [dimSub_match _ _ _ _ _ _ _ _ hhex, dimSub_match _ _ _ _ _ _ _ _ hhex,
        h _ _ _ _ _ _ hhex, ih]
  | case3 a b c d e f r2 hhex ih =>
    have hp : sixHexPrefix (a :: b :: c :: d :: e :: f :: r2) = false := by
      rw [sixHexPrefix_cons]
      revert hhex
      cases sixHexB a b c d e f <;> simp
    rw [dimSub_hash_nomatch _ _ hp, dimSub_hash_nomatch _ _ hp, ih]
  | case4 r hshape ih =>
    have hp : sixHexPrefix r = false := sixHexPrefix_false_of_not_shape r hshape
    rw [dimSub_hash_nomatch _ _ hp, dimSub_hash_nomatch _ _ hp, ih]
  | case5 x rest hx ih =>
    rw [dimSub_cons_ne _ _ _ hx, dimSub_cons_ne _ _ _ hx, ih]

/-- At `dim_strength = 1` with dim color `#000000` every channel blends
to `int(c * 0) + int(0 * 1) = 0`, so the replacement is the constant
token `#000000`. -/
def blackRep : Char → Char → Char → Char → Char → Char → List Char :=
  fun _ _ _ _ _ _ => ['#', '0', '0', '0', '0', '0', '0']

theorem dimRep_one_black (a b c d e f : Char) :
    dimRep 1 (dimV 1 (0, 0, 0)) a b c d e f = blackRep a b c d e f := by
  have hz : ∀ n : ℕ, pyInt ((n : ℚ) * (1 - 1)) = 0 := by
    intro n
    norm_num [pyInt]
  have hz2 : pyInt (((0 : ℕ) : ℚ) * 1) = 0 := by
    norm_num [pyInt]
  simp only [dimV, hz2, dimRep, chanBlend, hz, Int.toNat_zero, Nat.add_zero]
  rfl

theorem hash_not_hex : isHexDigit '#' = false := by decide

/-- A hexadecimal prefix of the output of the black substitution is
copied verbatim from the input: replacements start with `#`, which is
not a hex digit, so hex characters at the front of the output can only
be pass-through characters. -/
theorem blackSub_take_hex :
    ∀ (u : List Char) (k : ℕ),
      ((dimSub blackRep u).take k).all isHexDigit = true →
      (dimSub blackRep u).take k = u.take k := by
  intro u
  induction u using dimSub.induct blackRep with
  | case1 =>
    intro k h
    rw [dimSub_nil]
  | case2 a b c d e f r2 hhex ih =>
    intro k h
    rw [dimSub_match _ _ _ _ _ _ _ _ hhex] at h ⊢
    cases k with
    | zero => simp
    | succ j =>
      exfalso
      simp only [blackRep, List.cons_append, List.take_succ_cons,
                 List.all_cons, Bool.and_eq_true, hash_not_hex] at h
      exact Bool.false_ne_true h.1
  | case3 a b c d e f r2 hhex ih =>
    intro k h
    have hp : sixHexPrefix (a :: b :: c :: d :: e :: f :: r2) = false := by
      rw [sixHexPrefix_cons]
      revert hhex
      cases sixHexB a b c d e f <;> simp
    rw [dimSub_hash_nomatch _ _ hp] at h ⊢
    cases k with
    | zero => simp
    | succ j =>
      exfalso
      simp only [List.take_succ_cons, List.all_cons, Bool.and_eq_true,
                 hash_not_hex] at h
      exact Bool.false_ne_true h.1
  | case4 r hshape ih =>
    intro k h
    have hp : sixHexPrefix r = false := sixHexPrefix_false_of_not_shape r hshape
    rw [dimSub_hash_nomatch _ _ hp] at h ⊢
    cases k with
    | zero => simp
    | succ j =>
      exfalso
      simp only [List.take_succ_cons, List.all_cons, Bool.and_eq_true,
                 hash_not_hex] at h
      exact Bool.false_ne_true h.1
  | case5 x rest hx ih =>
    intro k h
    rw [dimSub_cons_ne _ _ _ hx] at h ⊢
    cases k with
    | zero => simp
    | succ j =>
      simp only [List.take_succ_cons, List.all_cons, Bool.and_eq_true] at h ⊢
      rw [ih j h.2]

theorem sixHexPrefix_iff_take (l : List Char) :
    sixHexPrefix l = true ↔
      ((l.take 6).length = 6 ∧ (l.take 6).all isHexDigit = true) := by
  rcases l with _ | ⟨a, _ | ⟨b, _ | ⟨c, _ | ⟨d, _ | ⟨e, _ | ⟨f, r2⟩⟩⟩⟩⟩⟩
  · simp [sixHexPrefix]
  · simp [sixHexPrefix]
  · simp [sixHexPrefix]
  · simp [sixHexPrefix]
  · simp [sixHexPrefix]
  · simp [sixHexPrefix]
  · simp only [sixHexPrefix_cons, sixHexB, List.take, List.length_cons,
               List.all_cons, Bool.and_eq_true]
    simp [and_assoc]

theorem blackSub_prefix_false {rest : List Char}
    (h : sixHexPrefix rest = false) :
    sixHexPrefix (dimSub blackRep rest) = false := by
  by_contra hcon
  have ht : sixHexPrefix (dimSub blackRep rest) = true := by
    revert hcon
    cases sixHexPrefix (dimSub blackRep rest) <;> simp
  rw [sixHexPrefix_iff_take] at ht
  obtain ⟨hlen, hall⟩ := ht
  have heq := blackSub_take_hex rest 6 hall
  rw [heq] at hlen hall
  have h2 : sixHexPrefix rest = true :=
    (sixHexPrefix_iff_take rest).mpr ⟨hlen, hall⟩
  rw [h] at h2
  cases h2

/-- Substituting every token by the constant token `#000000` is
idempotent: the tokens of the output map to themselves, and the
non-token text of the output cannot form new matches. -/
theorem blackSub_idem :
    ∀ t, dimSub blackRep (dimSub blackRep t) = dimSub blackRep t := by
  intro t
  induction t using dimSub.induct blackRep with
  | case1 =>
    rw [dimSub_nil, dimSub_nil]
  | case2 a b c d e f r2 hhex ih =>
    rw [dimSub_match _ _ _ _ _ _ _ _ hhex]
    show dimSub blackRep
        ('#' :: '0' :: '0' :: '0' :: '0' :: '0' :: '0' :: dimSub blackRep r2) = _
    rw [dimSub_match _ _ _ _ _ _ _ _ (by decide), ih]
    rfl
  | case3 a b c d e f r2 hhex ih =>
    have hp : sixHexPrefix (a :: b :: c :: d :: e :: f :: r2) = false := by
      rw [sixHexPrefix_cons]
      revert hhex
      cases sixHexB a b c d e f <;> simp
    rw [dimSub_hash_nomatch _ _ hp,
        dimSub_hash_nomatch _ _ (blackSub_prefix_false hp), ih]
  | case4 r hshape ih =>
    have hp : sixHexPrefix r = false := sixHexPrefix_false_of_not_shape r hshape
    rw [dimSub_hash_nomatch _ _ hp,
        dimSub_hash_nomatch _ _ (blackSub_prefix_false hp), ih]
  | case5 x rest hx ih =>
    rw [dimSub_cons_ne _ _ _ hx, dimSub_cons_ne _ _ _ hx, ih]

-- ### Claim C5: counterexample and amended statement

/-- Counterexample to C5 as stated: at `dim_strength = 1` (which is
`> 0`) with dim color `#000000`, there is NO input text on which a
second application of the transform changes the result of the first:
every matched token becomes the constant `#000000`, which is a fixed
point, so applying the transform twice never compounds the blend. -/
theorem C5_strength_one_idempotent :
    ¬ ∃ t : List Char,
        (dim_scheme ['#', '0', '0', '0', '0', '0', '0'] (StrengthVal.num 1) t).bind
            (dim_scheme ['#', '0', '0', '0', '0', '0', '0'] (StrengthVal.num 1))
          ≠ dim_scheme ['#', '0', '0', '0', '0', '0', '0'] (StrengthVal.num 1) t := by
  rintro ⟨t, hne⟩
  apply hne
  have hpc : parseDimColor ['#', '0', '0', '0', '0', '0', '0'] = some (0, 0, 0) := by
    decide
  have hno : ¬((1 : ℚ) < 0 ∨ 1 < (1 : ℚ)) := by norm_num
  simp only [dim_scheme, hpc, if_neg hno, Option.some_bind, Option.some.injEq]
  have hc := dimSub_congr (dimRep 1 (dimV 1 (0, 0, 0))) blackRep
    (fun a b c d e f _ => dimRep_one_black a b c d e f)
  rw [hc t, hc (dimSub blackRep t)]
  exact blackSub_idem t

theorem hexDigitL_hexVal_lower {x : Char} (hx : isHexDigit x = true) :
    hexDigitL (hexVal x) = lowerHexChar x := by
  have h2 := isHexDigit_mem hx
  fin_cases h2 <;> decide

theorem hexPair_div (a b : Char) (hb : isHexDigit b = true) :
    hexPair a b / 16 = hexVal a := by
  have h2 := hexVal_lt hb
  rw [hexPair, Nat.mul_add_div (by norm_num), Nat.div_eq_of_lt h2, Nat.add_zero]

theorem hexPair_mod (a b : Char) (hb : isHexDigit b = true) :
    hexPair a b % 16 = hexVal b := by
  have h2 := hexVal_lt hb
  rw [hexPair, Nat.mul_add_mod, Nat.mod_eq_of_lt h2]

theorem format02x_hexPair_lower {a b : Char} (ha : isHexDigit a = true)
    (hb : isHexDigit b = true) :
    format02x (hexPair a b) = [lowerHexChar a, lowerHexChar b] := by
  rw [format02x_eq_pair _ (hexPair_lt ha hb), hexPair_div a b hb,
      hexPair_mod a b hb, hexDigitL_hexVal_lower ha, hexDigitL_hexVal_lower hb]

theorem dimV_zero (dr dg db : ℕ) : dimV 0 (dr, dg, db) = (0, 0, 0) := by
  simp [dimV, pyInt]

theorem chanBlend_zero (c : ℕ) : chanBlend 0 c 0 = c := by
  rw [chanBlend, pyInt_of_nonneg (by positivity)]
  simp

theorem dimRep_zero_lower (dr dg db : ℕ) (a b c d e f : Char)
    (h : sixHexB a b c d e f = true) :
    dimRep 0 (dimV 0 (dr, dg, db)) a b c d e f = lowerRep a b c d e f := by
  simp only [sixHexB, Bool.and_eq_true] at h
  obtain ⟨⟨⟨⟨⟨ha, hb⟩, hc⟩, hd⟩, he⟩, hf⟩ := h
  rw [dimV_zero, dimRep, chanBlend_zero, chanBlend_zero, chanBlend_zero,
      format02x_hexPair_lower ha hb, format02x_hexPair_lower hc hd,
      format02x_hexPair_lower he hf, lowerRep]
  rfl

theorem dimRep_black_chan (s : ℚ) (h1s : (0 : ℚ) ≤ 1 - s) (a b c d e f : Char) :
    dimRep s (0, 0, 0) a b c d e f =
      '#' :: (format02x (Int.toNat ⌊(hexPair a b : ℚ) * (1 - s)⌋) ++
              format02x (Int.toNat ⌊(hexPair c d : ℚ) * (1 - s)⌋) ++
              format02x (Int.toNat ⌊(hexPair e f : ℚ) * (1 - s)⌋)) := by
  simp only [dimRep, chanBlend]
  rw [pyInt_of_nonneg (mul_nonneg (Nat.cast_nonneg _) h1s),
      pyInt_of_nonneg (mul_nonneg (Nat.cast_nonneg _) h1s),
      pyInt_of_nonneg (mul_nonneg (Nat.cast_nonneg _) h1s)]
  simp

/-- C5 as amended: the transform is idempotent at `dim_strength = 0`
(up to the lowercasing of the hex digits of matched tokens), and it
fails to be idempotent for every strength `0 < s ≤ 254/255` — there the
blend compounds: dimming `#FFFFFF` toward `#000000` a second time
changes the result of the first application.  (The original claim said
this for every `s > 0`; that fails for `s` close to or equal to `1`,
where one application is already a fixed point.) -/
theorem C5_idempotence_boundary :
    (∀ (color : List Char) (dr dg db : ℕ),
       parseDimColor color = some (dr, dg, db) →
       ∀ data, dim_scheme color (StrengthVal.num 0) data =
         some (lowerHexTokens data))
    ∧ (∀ s : ℚ, 0 < s → s ≤ 254/255 →
        (dim_scheme ['#', '0', '0', '0', '0', '0', '0'] (StrengthVal.num s)
            ['#', 'F', 'F', 'F', 'F', 'F', 'F']).bind
          (dim_scheme ['#', '0', '0', '0', '0', '0', '0'] (StrengthVal.num s))
        ≠ dim_scheme ['#', '0', '0', '0', '0', '0', '0'] (StrengthVal.num s)
            ['#', 'F', 'F', 'F', 'F', 'F', 'F']) := by
  constructor
  · intro color dr dg db hcolor data
    have hno : ¬((0 : ℚ) < 0 ∨ 1 < (0 : ℚ)) := by norm_num
    simp only [dim_scheme, hcolor, if_neg hno, Option.some.injEq]
    exact dimSub_congr _ lowerRep
      (fun a b c d e f hh => dimRep_zero_lower dr dg db a b c d e f hh) data
  · intro s hs0 hs254
    have hs1 : s ≤ 1 := le_trans hs254 (by norm_num)
    have h1s : (0 : ℚ) ≤ 1 - s := by linarith
    have hno : ¬(s < 0 ∨ 1 < s) := by
      push_neg
      exact ⟨le_of_lt hs0, hs1⟩
    have hpc : parseDimColor ['#', '0', '0', '0', '0', '0', '0'] = some (0, 0, 0) := by
      decide
    simp only [dim_scheme, hpc, if_neg hno, Option.some_bind, ne_eq,
               Option.some.injEq]
    have hdV : dimV s (0, 0, 0) = (0, 0, 0) := by
      simp [dimV, pyInt]
    rw [hdV]
    -- first application on the token #FFFFFF
    have hFF : hexPair 'F' 'F' = 255 := by decide
    have hfl_lb : (1 : ℤ) ≤ ⌊(255 : ℚ) * (1 - s)⌋ := by
      rw [Int.le_floor]
      push_cast
      linarith
    have hfl_nn : (0 : ℤ) ≤ ⌊(255 : ℚ) * (1 - s)⌋ := le_trans (by norm_num) hfl_lb
    have hfl_ub : ⌊(255 : ℚ) * (1 - s)⌋ < 255 := by
      rw [Int.floor_lt]
      push_cast
      linarith
    have hm_lb : 1 ≤ Int.toNat ⌊(255 : ℚ) * (1 - s)⌋ := by omega
    have hm_ub : Int.toNat ⌊(255 : ℚ) * (1 - s)⌋ < 255 := by omega
    have happ1 : dimSub (dimRep s (0, 0, 0)) ['#', 'F', 'F', 'F', 'F', 'F', 'F'] =
        '#' :: (format02x (Int.toNat ⌊(255 : ℚ) * (1 - s)⌋) ++
                format02x (Int.toNat ⌊(255 : ℚ) * (1 - s)⌋) ++
                format02x (Int.toNat ⌊(255 : ℚ) * (1 - s)⌋)) := by
      rw [show (['#', 'F', 'F', 'F', 'F', 'F', 'F'] : List Char) =
            '#' :: 'F' :: 'F' :: 'F' :: 'F' :: 'F' :: 'F' :: [] from rfl]
      rw [dimSub_match _ _ _ _ _ _ _ _ (by decide), dimSub_nil, List.append_nil]
      rw [dimRep_black_chan s h1s]
      rw [hFF]
      push_cast
      rfl
    rw [happ1]
    intro hcontra
    -- second application; abbreviations for the produced digits
    have hm256 : Int.toNat ⌊(255 : ℚ) * (1 - s)⌋ < 256 := by omega
    have hd1 : isHexDigit (hexDigitL (Int.toNat ⌊(255 : ℚ) * (1 - s)⌋ / 16)) = true :=
      hexDigitL_isHex _ (by omega)
    have hd2 : isHexDigit (hexDigitL (Int.toNat ⌊(255 : ℚ) * (1 - s)⌋ % 16)) = true :=
      hexDigitL_isHex _ (by omega)
    rw [format02x_eq_pair _ hm256] at hcontra
    have hshape : ('#' :: ([hexDigitL (Int.toNat ⌊(255 : ℚ) * (1 - s)⌋ / 16),
                            hexDigitL (Int.toNat ⌊(255 : ℚ) * (1 - s)⌋ % 16)] ++
                           [hexDigitL (Int.toNat ⌊(255 : ℚ) * (1 - s)⌋ / 16),
                            hexDigitL (Int.toNat ⌊(255 : ℚ) * (1 - s)⌋ % 16)] ++
                           [hexDigitL (Int.toNat ⌊(255 : ℚ) * (1 - s)⌋ / 16),
                            hexDigitL (Int.toNat ⌊(255 : ℚ) * (1 - s)⌋ % 16)]) : List Char) =
        '#' :: hexDigitL (Int.toNat ⌊(255 : ℚ) * (1 - s)⌋ / 16) ::
          hexDigitL (Int.toNat ⌊(255 : ℚ) * (1 - s)⌋ % 16) ::
          hexDigitL (Int.toNat ⌊(255 : ℚ) * (1 - s)⌋ / 16) ::
          hexDigitL (Int.toNat ⌊(255 : ℚ) * (1 - s)⌋ % 16) ::
          hexDigitL (Int.toNat ⌊(255 : ℚ) * (1 - s)⌋ / 16) ::
          hexDigitL (Int.toNat ⌊(255 : ℚ) * (1 - s)⌋ % 16) :: [] := by
      simp
    rw [hshape] at hcontra
    rw [dimSub_match _ _ _ _ _ _ _ _ (by simp [sixHexB, hd1, hd2]),
        dimSub_nil, List.append_nil] at hcontra
    rw [dimRep_black_chan s h1s] at hcontra
    rw [hexPair_hexDigitL _ hm256] at hcontra
    -- the second-round channel value is strictly smaller
    have hq2 : (0 : ℚ) ≤ (Int.toNat ⌊(255 : ℚ) * (1 - s)⌋ : ℚ) * (1 - s) :=
      mul_nonneg (Nat.cast_nonneg _) h1s
    have hfl2_nn : (0 : ℤ) ≤ ⌊(Int.toNat ⌊(255 : ℚ) * (1 - s)⌋ : ℚ) * (1 - s)⌋ :=
      Int.floor_nonneg.mpr hq2
    have hmpos : (0 : ℚ) < (Int.toNat ⌊(255 : ℚ) * (1 - s)⌋ : ℚ) := by
      have : (1 : ℚ) ≤ (Int.toNat ⌊(255 : ℚ) * (1 - s)⌋ : ℚ) := by
        exact_mod_cast hm_lb
      linarith
    have hfl2_lt : ⌊(Int.toNat ⌊(255 : ℚ) * (1 - s)⌋ : ℚ) * (1 - s)⌋ <
        (Int.toNat ⌊(255 : ℚ) * (1 - s)⌋ : ℤ) := by
      rw [Int.floor_lt]
      push_cast
      nlinarith
    have hm2_lt : Int.toNat ⌊(Int.toNat ⌊(255 : ℚ) * (1 - s)⌋ : ℚ) * (1 - s)⌋ <
        Int.toNat ⌊(255 : ℚ) * (1 - s)⌋ := by omega
    have hm2_256 : Int.toNat ⌊(Int.toNat ⌊(255 : ℚ) * (1 - s)⌋ : ℚ) * (1 - s)⌋ < 256 := by
      omega
    rw [format02x_eq_pair _ hm2_256] at hcontra
    simp only [List.cons_append, List.nil_append, List.cons.injEq,
               eq_self_iff_true, true_and, and_true] at hcontra
    obtain ⟨h1, h2, -⟩ := hcontra
    have e1 : Int.toNat ⌊(Int.toNat ⌊(255 : ℚ) * (1 - s)⌋ : ℚ) * (1 - s)⌋ / 16 =
        Int.toNat ⌊(255 : ℚ) * (1 - s)⌋ / 16 := by
      have hv := hexVal_hexDigitL
        (Int.toNat ⌊(Int.toNat ⌊(255 : ℚ) * (1 - s)⌋ : ℚ) * (1 - s)⌋ / 16) (by omega)
      rw [h1, hexVal_hexDigitL _ (by omega)] at hv
      omega
    have e2 : Int.toNat ⌊(Int.toNat ⌊(255 : ℚ) * (1 - s)⌋ : ℚ) * (1 - s)⌋ % 16 =
        Int.toNat ⌊(255 : ℚ) * (1 - s)⌋ % 16 := by
      have hv := hexVal_hexDigitL
        (Int.toNat ⌊(Int.toNat ⌊(255 : ℚ) * (1 - s)⌋ : ℚ) * (1 - s)⌋ % 16) (by omega)
      rw [h2, hexVal_hexDigitL _ (by omega)] at hv
      omega
    omega

/-- Witness for C5 as amended: at strength `0` the token `#ABCDEF` is
merely lowercased (trailing `!` untouched), and at strength `1/2`
(which is `≤ 254/255`) a second application changes the result. -/
theorem C5_idempotence_boundary_witness :
    (parseDimColor ['#', '0', '0', '0', '0', '0', '0'] = some (0, 0, 0)
     ∧ dim_scheme ['#', '0', '0', '0', '0', '0', '0'] (StrengthVal.num 0)
         ['#', 'A', 'B', 'C', 'D', 'E', 'F', '!'] =
       some (lowerHexTokens ['#', 'A', 'B', 'C', 'D', 'E', 'F', '!']))
    ∧ ((0 : ℚ) < 1/2 ∧ (1/2 : ℚ) ≤ 254/255
       ∧ (dim_scheme ['#', '0', '0', '0', '0', '0', '0'] (StrengthVal.num (1/2))
            ['#', 'F', 'F', 'F', 'F', 'F', 'F']).bind
           (dim_scheme ['#', '0', '0', '0', '0', '0', '0'] (StrengthVal.num (1/2)))
         ≠ dim_scheme ['#', '0', '0', '0', '0', '0', '0'] (StrengthVal.num (1/2))
            ['#', 'F', 'F', 'F', 'F', 'F', 'F']) :=
  ⟨⟨by decide, C5_idempotence_boundary.1 _ 0 0 0 (by decide) _⟩,
   by norm_num, by norm_num,
   C5_idempotence_boundary.2 (1/2) (by norm_num) (by norm_num)⟩

/-!
## Part 2: the change-detecting settings cache

`Settings` (in `settings/__init__.py`, and its specialization with the
`_enabled` re-entrancy guard in `inactive_panes.py`) wraps a live
key/value store.  Python values are modelled by `PyVal`, Python dicts
keyed by strings as insertion-ordered association lists with
overwriting insertion, and the host's layered settings object by
`Store` (a view-local layer over an underlying layer, as revealed by
`erase`).
-/

/-- A Python settings value. -/
inductive PyVal where
  | vnone : PyVal
  | vnum (q : ℚ) : PyVal
  | vstr (s : List Char) : PyVal
  | vbool (b : Bool) : PyVal
deriving DecidableEq

/-- Lookup in a Python dict modelled as an association list. -/
def dictGet (d : List (String × PyVal)) (k : String) : Option PyVal :=
  match d with
  | [] => Option.none
  | (k2, v) :: rest => if k2 = k then some v else dictGet rest k

/-- `d[k] = v` on a Python dict: overwrite in place if the key exists,
append otherwise (insertion order preserved). -/
def dictInsert (d : List (String × PyVal)) (k : String) (v : PyVal) :
    List (String × PyVal) :=
  match d with
  | [] => [(k, v)]
  | (k2, v2) :: rest =>
    if k2 = k then (k, v) :: rest else (k2, v2) :: dictInsert rest k v

/-- `dict(pairs)`: build a Python dict by inserting the pairs in order. -/
def dictOf (l : List (String × PyVal)) : List (String × PyVal) :=
  l.foldl (fun d p => dictInsert d p.1 p.2) []

/-- Python `==` on dicts: same keys with equal values (order ignored). -/
def dictBeq (d1 d2 : List (String × PyVal)) : Bool :=
  d1.all (fun p => decide (dictGet d2 p.1 = some p.2)) &&
  d2.all (fun p => decide (dictGet d1 p.1 = some p.2))

/-- The host's layered settings object: a view-local layer whose keys
shadow an underlying layer.  `erase` removes only the local key,
re-exposing the underlying value — exactly the probing behavior
`Settings.__on_change` relies on. -/
structure Store where
  layer : String → Option PyVal
  under : String → Option PyVal

/-- `settings.get(key, default)`. -/
def Store.get (st : Store) (k : String) (d : PyVal) : PyVal :=
  match st.layer k with
  | some v => v
  | Option.none =>
    match st.under k with
    | some v => v
    | Option.none => d

/-- `settings.get(key)` — single-argument form, `None` default. -/
def Store.get1 (st : Store) (k : String) : PyVal :=
  Store.get st k PyVal.vnone

/-- `settings.set(key, value)`. -/
def Store.set (st : Store) (k : String) (v : PyVal) : Store :=
  { st with layer := fun k2 => if k2 = k then some v else st.layer k2 }

/-- `settings.erase(key)`. -/
def Store.erase (st : Store) (k : String) : Store :=
  { st with layer := fun k2 => if k2 = k then Option.none else st.layer k2 }

/-- The state of one `Settings` instance: the wrapped store, the
normalized tracked map (attribute name, settings key, default), the
cached attribute values, the optional callback (identified by a
number; `Option.none` is Python `None`), the `_registered` flag, and
the `_enabled` re-entrancy guard of the `inactive_panes.py`
specialization. -/
structure SState where
  store : Store
  tracked : List (String × String × PyVal)
  cached : List (String × PyVal)
  callback : Option ℕ
  registered : Bool
  enabled : Bool

/-- `Settings.update()`: for every tracked attribute, read
`store.get(key, default)` and store it as the cached value. -/
def Settings.update (σ : SState) : SState :=
  { σ with cached := σ.tracked.map (fun e => (e.1, σ.store.get e.2.1 e.2.2)) }

/-- `getattr(self, attr)` on a cached attribute (all tracked attributes
are populated by `update()`, which `__init__` calls first). -/
def Settings.getattrD (σ : SState) (attr : String) : PyVal :=
  (dictGet σ.cached attr).getD PyVal.vnone

/-- `Settings.get_state()`: dict of tracked settings keys to cached
values. -/
def Settings.get_state (σ : SState) : List (String × PyVal) :=
  dictOf (σ.tracked.map (fun e => (e.2.1, Settings.getattrD σ e.1)))

/-- `Settings.get_real_state()`: dict of tracked settings keys to live
values freshly read from the store. -/
def Settings.get_real_state (σ : SState) : List (String × PyVal) :=
  dictOf (σ.tracked.map (fun e => (e.2.1, σ.store.get e.2.1 e.2.2)))

/-- `Settings.has_changed()`:
`self.get_state() != self.get_real_state()`. -/
def Settings.has_changed (σ : SState) : Bool :=
  !(dictBeq (Settings.get_state σ) (Settings.get_real_state σ))

/-- `Settings._on_change()` of `settings/__init__.py`, the handler the
store invokes on a change notification.  The returned boolean records
whether the user callback was invoked. -/
def Settings.on_change (σ : SState) : SState × Bool :=
  if Settings.has_changed σ then (Settings.update σ, σ.callback.isSome)
  else (σ, false)

/-- `Settings.clear_callback(clear_auto_update)`: drop the callback,
optionally deregister from the store, and return the previous
callback. -/
def Settings.clear_callback (σ : SState) (clear_auto_update : Bool) :
    SState × Option ℕ :=
  (if σ.registered && clear_auto_update then
     { σ with callback := Option.none, registered := false }
   else
     { σ with callback := Option.none },
   σ.callback)

/-- An argument passed to `set_callback`: `None`, a callable, or a
non-callable non-`None` value. -/
inductive CBArg where
  | cnone : CBArg
  | cfun (n : ℕ) : CBArg
  | cother : CBArg
deriving DecidableEq

/-- Python truthiness of a callback argument (`None` is falsy). -/
def cbTruthy : CBArg → Bool
  | CBArg.cnone => false
  | CBArg.cfun _ => true
  | CBArg.cother => true

/-- The callback stored for an accepted argument. -/
def cbOpt : CBArg → Option ℕ
  | CBArg.cfun n => some n
  | _ => Option.none

/-- `Settings.set_callback(callback, auto_update)`: raise a `TypeError`
(modelled as `Except.error ()`) for a non-`None` non-callable argument
— before any mutation — otherwise clear the old callback (keeping the
store registration when it will still be needed), install the new one,
register with the store if necessary, and return the previous
callback. -/
def Settings.set_callback (σ : SState) (callback : CBArg)
    (auto_update : Bool) : SState × Except Unit (Option ℕ) :=
  match callback with
  | CBArg.cother => (σ, Except.error ())
  | cb =>
    let register := auto_update || cbTruthy cb
    let p := Settings.clear_callback σ (!register)
    let σ2 := { p.1 with callback := cbOpt cb }
    let σ3 := if !σ2.registered && register then
        { σ2 with registered := true }
      else σ2
    (σ3, Except.ok p.2)

/-- `a in b` on Python strings: `prefixOfL` is prefix comparison,
`substrOf` scans every suffix. -/
def prefixOfL : List Char → List Char → Bool
  | [], _ => true
  | _ :: _, [] => false
  | a :: as2, b :: bs => a = b && prefixOfL as2 bs

def substrOf (sub : List Char) : List Char → Bool
  | [] => prefixOfL sub []
  | b :: bs => prefixOfL sub (b :: bs) || substrOf sub bs

/-- `Settings.__on_change()` of `inactive_panes.py` (the handler
registered with the store there): while `_enabled` is false it only
refreshes the cache and returns; otherwise, when no tracked value
changed, it probes the underlying `color_scheme` by erasing the
view-local value, re-reading, and restoring it, and only proceeds to
`update()` plus callback when the underlying scheme changed beneath
the dimmed one.  `Option.none` models the `TypeError` raised when a
probed value is not a string; the returned boolean records whether the
user callback was invoked. -/
def ipOnChange (modName : List Char) (σ : SState) : Option (SState × Bool) :=
  if !σ.enabled then
    some (if Settings.has_changed σ then Settings.update σ else σ, false)
  else if Settings.has_changed σ then
    some (Settings.update σ, σ.callback.isSome)
  else
    match Store.get1 σ.store "color_scheme",
          Store.get1 (Store.erase σ.store "color_scheme") "color_scheme" with
    | PyVal.vstr dimmed, PyVal.vstr base0 =>
      let base := base0.drop 9
      let st2 := Store.set (Store.erase σ.store "color_scheme") "color_scheme"
        (PyVal.vstr dimmed)
      let σ2 := { σ with store := st2 }
      if substrOf base dimmed && substrOf modName dimmed then
        some (σ2, false)
      else
        some (Settings.update σ2, σ2.callback.isSome)
    | _, _ => Option.none

/-- An entry of the `settings` dict handed to `Settings.__init__`:
`None`, a plain string, or a `(key, default)` pair. -/
inductive RawEntry where
  | rnone : RawEntry
  | rstr (s : String) : RawEntry
  | rpair (key : String) (default : PyVal) : RawEntry
deriving DecidableEq

/-- The per-entry normalization in `Settings.__init__`: `None` becomes
`(attr_name, None)`, a string `s` becomes `(s, None)`, and a pair is
kept as given. -/
def normEntry (k : String) : RawEntry → String × PyVal
  | RawEntry.rnone => (k, PyVal.vnone)
  | RawEntry.rstr s2 => (s2, PyVal.vnone)
  | RawEntry.rpair key d => (key, d)

/-- The constructor's normalization loop over the whole `settings`
dict. -/
def normalizeSettings (m : List (String × RawEntry)) :
    List (String × String × PyVal) :=
  m.map (fun p => (p.1, normEntry p.1 p.2))

-- ### Dict lemmas

theorem dictGet_of_mem_nodup {d : List (String × PyVal)}
    (hnd : (d.map Prod.fst).Nodup) {p : String × PyVal} (hp : p ∈ d) :
    dictGet d p.1 = some p.2 := by
  induction d with
  | nil => cases hp
  | cons hd tl ih =>
    rw [List.map_cons] at hnd
    have hcons := List.nodup_cons.mp hnd
    rcases List.mem_cons.mp hp with rfl | hp2
    · simp [dictGet]
    · have hne : hd.1 ≠ p.1 := by
        intro hh
        apply hcons.1
        rw [hh]
        exact List.mem_map.mpr ⟨p, hp2, rfl⟩
      rw [dictGet, if_neg hne]
      exact ih hcons.2 hp2

theorem dictInsert_keys_sub {d : List (String × PyVal)} {k : String}
    {v : PyVal} {x : String} (hx : x ∈ (dictInsert d k v).map Prod.fst) :
    x = k ∨ x ∈ d.map Prod.fst := by
  induction d with
  | nil =>
    rw [dictInsert] at hx
    simp only [List.map_cons, List.map_nil] at hx
    rcases List.mem_cons.mp hx with h | h
    · exact Or.inl h
    · cases h
  | cons hd tl ih =>
    rw [dictInsert] at hx
    by_cases hk : hd.1 = k
    · rw [if_pos hk, List.map_cons] at hx
      rcases List.mem_cons.mp hx with h | h
      · exact Or.inl h
      · right
        rw [List.map_cons]
        exact List.mem_cons.mpr (Or.inr h)
    · rw [if_neg hk, List.map_cons] at hx
      rcases List.mem_cons.mp hx with h | h
      · right
        rw [List.map_cons]
        exact List.mem_cons.mpr (Or.inl h)
      · rcases ih h with h2 | h2
        · exact Or.inl h2
        · right
          rw [List.map_cons]
          exact List.mem_cons.mpr (Or.inr h2)

theorem dictInsert_nodup {d : List (String × PyVal)} {k : String} {v : PyVal}
    (hnd : (d.map Prod.fst).Nodup) :
    ((dictInsert d k v).map Prod.fst).Nodup := by
  induction d with
  | nil => simp [dictInsert]
  | cons hd tl ih =>
    rw [dictInsert]
    rw [List.map_cons] at hnd
    by_cases hk : hd.1 = k
    · rw [if_pos hk, List.map_cons]
      rw [hk] at hnd
      exact hnd
    · rw [if_neg hk, List.map_cons]
      have h2 := List.nodup_cons.mp hnd
      refine List.nodup_cons.mpr ⟨?_, ih h2.2⟩
      intro hmem
      rcases dictInsert_keys_sub hmem with h | h
      · exact hk h
      · exact h2.1 h

theorem dictOf_nodup_aux (l : List (String × PyVal)) :
    ∀ d : List (String × PyVal), (d.map Prod.fst).Nodup →
      (((l.foldl (fun d p => dictInsert d p.1 p.2) d)).map Prod.fst).Nodup := by
  induction l with
  | nil => intro d hd; simpa using hd
  | cons hd tl ih =>
    intro d hnd
    exact ih (dictInsert d hd.1 hd.2) (dictInsert_nodup hnd)

theorem dictOf_nodup (l : List (String × PyVal)) :
    ((dictOf l).map Prod.fst).Nodup :=
  dictOf_nodup_aux l [] (by simp)

theorem dictBeq_self (d : List (String × PyVal))
    (h : ∀ p ∈ d, dictGet d p.1 = some p.2) : dictBeq d d = true := by
  rw [dictBeq]
  have hall : d.all (fun p => decide (dictGet d p.1 = some p.2)) = true := by
    rw [List.all_eq_true]
    intro p hp
    exact decide_eq_true (h p hp)
  rw [hall]
  rfl

theorem dictBeq_dictOf_self (l : List (String × PyVal)) :
    dictBeq (dictOf l) (dictOf l) = true :=
  dictBeq_self _ (fun p hp => dictGet_of_mem_nodup (dictOf_nodup l) hp)

-- ### Claim C2

/-- C2: the settings cache's internal change handler `_on_change`
(`settings/__init__.py`) calls `has_changed()`; when it is true it
calls `update()` and then invokes the stored callback if any; when no
tracked key's live value differs from its cached value it does nothing
— the state is untouched and the user callback is not invoked. -/
theorem C2_on_change_only_on_diff (σ : SState) :
    (Settings.has_changed σ = true →
      Settings.on_change σ = (Settings.update σ, σ.callback.isSome))
    ∧ ((∀ e ∈ σ.tracked,
          Settings.getattrD σ e.1 = σ.store.get e.2.1 e.2.2) →
      Settings.on_change σ = (σ, false)) := by
  constructor
  · intro h
    rw [Settings.on_change, if_pos h]
  · intro h
    have hmap : σ.tracked.map (fun e => (e.2.1, Settings.getattrD σ e.1)) =
        σ.tracked.map (fun e => (e.2.1, σ.store.get e.2.1 e.2.2)) := by
      apply List.map_congr_left
      intro e he
      rw [h e he]
    have hstate : Settings.get_state σ = Settings.get_real_state σ := by
      rw [Settings.get_state, Settings.get_real_state, hmap]
    have hchanged : Settings.has_changed σ = false := by
      rw [Settings.has_changed, hstate, Settings.get_real_state,
          dictBeq_dictOf_self]
      rfl
    rw [Settings.on_change, hchanged]
    rfl

theorem dictGet_map_attr (tr : List (String × String × PyVal))
    (f : String × String × PyVal → PyVal)
    (hnd : (tr.map (fun e => e.1)).Nodup) :
    ∀ e ∈ tr, dictGet (tr.map (fun x => (x.1, f x))) e.1 = some (f e) := by
  induction tr with
  | nil => intro e he; cases he
  | cons hd tl ih =>
    intro e he
    rw [List.map_cons] at hnd
    have hcons := List.nodup_cons.mp hnd
    rw [List.map_cons]
    rcases List.mem_cons.mp he with rfl | he2
    · rw [dictGet, if_pos rfl]
    · have hne : hd.1 ≠ e.1 := by
        intro hh
        apply hcons.1
        rw [hh]
        exact List.mem_map.mpr ⟨e, he2, rfl⟩
      rw [dictGet, if_neg hne]
      exact ih hcons.2 e he2

-- ### Claim C6

/-- C6: `update()` always succeeds (it is a total function), and
immediately afterwards the cache matches the live store:
`get_state() == get_real_state()`, and every tracked attribute holds
`store.get(key, default)` as read during the update. -/
theorem C6_update_syncs_cache (σ : SState)
    (h : (σ.tracked.map (fun e => e.1)).Nodup) :
    Settings.get_state (Settings.update σ) =
      Settings.get_real_state (Settings.update σ)
    ∧ ∀ e ∈ σ.tracked,
        Settings.getattrD (Settings.update σ) e.1 = σ.store.get e.2.1 e.2.2 := by
  have hlook := dictGet_map_attr σ.tracked
    (fun x => σ.store.get x.2.1 x.2.2) h
  have hattr : ∀ e ∈ σ.tracked,
      Settings.getattrD (Settings.update σ) e.1 = σ.store.get e.2.1 e.2.2 := by
    intro e he
    rw [Settings.getattrD,
        show (Settings.update σ).cached =
          σ.tracked.map (fun x => (x.1, σ.store.get x.2.1 x.2.2)) from rfl,
        hlook e he]
    rfl
  refine ⟨?_, hattr⟩
  rw [Settings.get_state, Settings.get_real_state]
  congr 1
  apply List.map_congr_left
  intro e he
  rw [show (Settings.update σ).store = σ.store from rfl, hattr e he]

-- ### Claim C4

/-- C4: while the `_enabled` re-entrancy guard is false, the
`inactive_panes.py` change handler never invokes the user callback: a
notification at most refreshes the cached values (when `has_changed()`
is true) and returns; the probing and callback code is never
reached. -/
theorem C4_disabled_never_calls_back (modName : List Char) (σ : SState)
    (h : σ.enabled = false) :
    ipOnChange modName σ =
      some (if Settings.has_changed σ then Settings.update σ else σ, false) := by
  rw [ipOnChange, h]
  rfl

-- ### Claim C7

/-- C7: `set_callback(callback, auto_update)` raises a type error iff
`callback` is neither `None` nor callable; otherwise it installs (or
replaces) the callback and returns the previous one. -/
theorem C7_set_callback_contract (σ : SState) (cb : CBArg) (au : Bool) :
    ((Settings.set_callback σ cb au).2 = Except.error () ↔ cb = CBArg.cother)
    ∧ (cb ≠ CBArg.cother →
        (Settings.set_callback σ cb au).2 = Except.ok σ.callback
        ∧ (Settings.set_callback σ cb au).1.callback = cbOpt cb) := by
  rcases cb with _ | n | _
  · refine ⟨by simp [Settings.set_callback], fun h => ⟨rfl, ?_⟩⟩
    simp only [Settings.set_callback, cbOpt]
    split <;> rfl
  · refine ⟨by simp [Settings.set_callback], fun h => ⟨rfl, ?_⟩⟩
    simp only [Settings.set_callback, cbOpt]
    split <;> rfl
  · exact ⟨by simp [Settings.set_callback], fun h => absurd rfl h⟩

-- ### Claim C8

/-- C8: constructor normalization of the tracked-key map: a string
entry `s` becomes the pair `(s, None)`, a `None` entry makes the
attribute name double as the settings key with default `None`, and a
`(key, default)` pair is kept as given. -/
theorem C8_settings_normalization :
    ∀ (m : List (String × RawEntry)) (k s2 : String) (d : PyVal),
      normalizeSettings ((k, RawEntry.rstr s2) :: m) =
        (k, (s2, PyVal.vnone)) :: normalizeSettings m
      ∧ normalizeSettings ((k, RawEntry.rnone) :: m) =
        (k, (k, PyVal.vnone)) :: normalizeSettings m
      ∧ normalizeSettings ((k, RawEntry.rpair s2 d) :: m) =
        (k, (s2, d)) :: normalizeSettings m :=
  fun _ _ _ _ => ⟨rfl, rfl, rfl⟩

-- ### Claim C10

/-- C10: `set_callback` is atomic on error: the type check precedes
every mutation, so on a non-`None` non-callable argument the whole
state — installed callback and store-registration status included — is
returned unchanged alongside the error. -/
theorem C10_set_callback_atomic_error (σ : SState) (au : Bool) :
    Settings.set_callback σ CBArg.cother au = (σ, Except.error ()) :=
  rfl

-- ### Sample states for the witnesses

/-- A concrete store: the view-local layer holds a dimmed
`color_scheme`; everything else falls through to an empty underlying
layer. -/
def sampleStore : Store :=
  { layer := fun k =>
      if k = "color_scheme" then
        some (PyVal.vstr ['P', 'a', 'c', 'k', 'a', 'g', 'e', 's', '/', 'd'])
      else Option.none,
    under := fun _ => Option.none }

/-- A cache state whose cached values agree with the live store. -/
def sampleState : SState :=
  { store := sampleStore,
    tracked := [("_color_scheme", "color_scheme", PyVal.vnone),
                ("dim_color", "inactive_panes_dim_color",
                 PyVal.vstr ['#', '7', 'F', '7', 'F', '7', 'F'])],
    cached := [("_color_scheme",
                PyVal.vstr ['P', 'a', 'c', 'k', 'a', 'g', 'e', 's', '/', 'd']),
               ("dim_color", PyVal.vstr ['#', '7', 'F', '7', 'F', '7', 'F'])],
    callback := some 0,
    registered := true,
    enabled := true }

/-- `sampleState` with a stale cached value. -/
def sampleChanged : SState :=
  { sampleState with
    cached := [("_color_scheme", PyVal.vnone),
               ("dim_color", PyVal.vstr ['#', '7', 'F', '7', 'F', '7', 'F'])] }

/-- `sampleState` with the re-entrancy guard disabled. -/
def sampleDisabled : SState :=
  { sampleState with enabled := false }

/-- Witness for C2: on a state whose cache matches the store the
handler does nothing, and on a state with a stale cached value it
updates and reports the callback as invoked. -/
theorem C2_on_change_only_on_diff_witness :
    (∀ e ∈ sampleState.tracked,
        Settings.getattrD sampleState e.1 =
          sampleState.store.get e.2.1 e.2.2)
    ∧ Settings.on_change sampleState = (sampleState, false)
    ∧ Settings.has_changed sampleChanged = true
    ∧ Settings.on_change sampleChanged =
        (Settings.update sampleChanged, sampleChanged.callback.isSome) :=
  ⟨by decide, (C2_on_change_only_on_diff sampleState).2 (by decide),
   by decide, (C2_on_change_only_on_diff sampleChanged).1 (by decide)⟩

/-- Witness for C4: with the guard disabled, a notification on an
unchanged state returns the state itself and does not invoke the
callback. -/
theorem C4_disabled_never_calls_back_witness :
    sampleDisabled.enabled = false
    ∧ ipOnChange ['d', 'i', 'm'] sampleDisabled = some (sampleDisabled, false) := by
  refine ⟨rfl, ?_⟩
  rw [C4_disabled_never_calls_back ['d', 'i', 'm'] sampleDisabled rfl,
      show Settings.has_changed sampleDisabled = false from by decide]
  rfl

/-- Witness for C6: on the concrete tracked map (distinct attribute
names) the cache matches the live store right after `update()`. -/
theorem C6_update_syncs_cache_witness :
    (sampleState.tracked.map (fun e => e.1)).Nodup
    ∧ Settings.get_state (Settings.update sampleState) =
        Settings.get_real_state (Settings.update sampleState) :=
  ⟨by decide, (C6_update_syncs_cache sampleState (by decide)).1⟩

/-- Witness for C7: installing the callable `7` over `sampleState`
succeeds, returns the previous callback `0`, and stores the new
one. -/
theorem C7_set_callback_contract_witness :
    CBArg.cfun 7 ≠ CBArg.cother
    ∧ (Settings.set_callback sampleState (CBArg.cfun 7) true).2 =
        Except.ok sampleState.callback
    ∧ (Settings.set_callback sampleState (CBArg.cfun 7) true).1.callback =
        cbOpt (CBArg.cfun 7) :=
  ⟨by decide,
   (C7_set_callback_contract sampleState (CBArg.cfun 7) true).2 (by decide)⟩
